import Mathlib

/-!
Shallow embedding of the incremental-analysis core of the `ra_analysis` /
`ra_db` crates: the input store and change-application protocol
(`RootDatabase::apply_change`, `RootDatabase::apply_root_change`), the
resolution engine (`approximately_resolve_symbol`, `find_all_refs`, `rename`,
`resolve_callable`, `index_resolve`, `diagnostics`) and the hover feature
(`hover`, `doc_text_for`).

External collaborators (parser node lookup, `hir::source_binder`, scopes,
type inference) are modelled as pure functions bundled in collaborator
records, exactly at the interface the source consumes them through.  Parts of
the repository that are not among the reviewed sources (the salsa revision
counter, `symbol_index::world_symbols`, `hir::FnSignatureInfo`) are modelled
from the specification and are marked as such in their doc comments.
-/

namespace RaAnalysis

/-- Text range with inclusive `start` and exclusive `stop`, mirroring
`ra_syntax::TextRange` (`stop` stands for the source's `range.end()`). -/
structure TextRange where
  start : Nat
  stop : Nat
deriving DecidableEq, Repr

/-- The subset of `ra_syntax::SyntaxKind` tags the embedded operations use. -/
inductive SyntaxKind where
  | NAME
  | MODULE
  | FN_DEF
  | NAME_REF
  | other (tag : Nat)
deriving DecidableEq, Repr

/-- Mirror of `ra_db::FilePosition`: a file id plus a text offset. -/
structure FilePosition where
  file_id : Nat
  offset : Nat
deriving DecidableEq, Repr

/-- Pointwise update of a total map; models a salsa input query `set`. -/
def upd {α : Type} (f : Nat → α) (k : Nat) (v : α) : Nat → α :=
  fun x => if x = k then v else f x

/-- Mirror of `ra_db::SourceRoot`: the mapping from relative path to file id,
modelled as an association list in which an insert replaces any previous
binding for the key, as `FxHashMap::insert` does. -/
structure SourceRoot where
  files : List (String × Nat)
deriving DecidableEq, Repr

/-- Insert a path-to-file-id binding, replacing any previous binding. -/
def mapInsert (m : List (String × Nat)) (k : String) (v : Nat) : List (String × Nat) :=
  (k, v) :: m.filter (fun p => p.1 ≠ k)

/-- Remove every binding of the given path (`FxHashMap::remove`). -/
def mapRemove (m : List (String × Nat)) (k : String) : List (String × Nat) :=
  m.filter (fun p => p.1 ≠ k)

/-- Whether the root's file set contains the given path. -/
def SourceRoot.containsPath (sr : SourceRoot) (p : String) : Bool :=
  sr.files.any (fun q => q.1 = p)

/-- Mirror of `AddFile` from `ra_analysis/src/lib.rs`. -/
structure AddFile where
  file_id : Nat
  path : String
  text : String
deriving DecidableEq, Repr

/-- Mirror of `RemoveFile` from `ra_analysis/src/lib.rs`. -/
structure RemoveFile where
  file_id : Nat
  path : String
deriving DecidableEq, Repr

/-- Mirror of `RootChange` from `ra_analysis/src/lib.rs`. -/
structure RootChange where
  added : List AddFile
  removed : List RemoveFile
deriving DecidableEq, Repr

/-- Mirror of `symbol_index::FileSymbol`: a name-indexed symbol carrying its
file, name and the kind and range of its syntax pointer. -/
structure FileSymbol where
  file_id : Nat
  name : String
  ptrKind : SyntaxKind
  ptrRange : TextRange
deriving DecidableEq, Repr

/-- Mirror of `LibraryData` from `ra_analysis/src/lib.rs`. -/
structure LibraryData where
  root_id : Nat
  root_change : RootChange
  symbol_index : List FileSymbol
deriving DecidableEq, Repr

/-- The crate graph is opaque to every claim under study; it is stored and
replaced wholesale, so a list of (crate id, root file id) edges suffices. -/
abbrev CrateGraph := List (Nat × Nat)

/-- Mirror of `AnalysisChange` from `ra_analysis/src/lib.rs`: one write-once
batch of mutations. -/
structure AnalysisChange where
  new_roots : List (Nat × Bool)
  roots_changed : List (Nat × RootChange)
  files_changed : List (Nat × String)
  libraries_added : List LibraryData
  crate_graph : Option CrateGraph

/-- The input-store portion of `db::RootDatabase`: each salsa input query
becomes a total map (reads of unknown ids yield the stored default, never a
fault). -/
structure RootDatabaseState where
  fileText : Nat → String
  fileRelativePath : Nat → String
  fileSourceRoot : Nat → Nat
  sourceRoots : Nat → SourceRoot
  localRoots : List Nat
  libraryRoots : List Nat
  librarySymbols : Nat → List FileSymbol
  crateGraph : CrateGraph

/-- Adds phase of `RootDatabase::apply_root_change`: for each added file set
its text, relative path and owning root, and insert its path into the cloned
root's file set. -/
def applyAdds (root_id : Nat) : RootDatabaseState × SourceRoot → List AddFile → RootDatabaseState × SourceRoot
  | acc, [] => acc
  | (s, sr), af :: rest =>
      applyAdds root_id
        ({ s with
            fileText := upd s.fileText af.file_id af.text
            fileRelativePath := upd s.fileRelativePath af.file_id af.path
            fileSourceRoot := upd s.fileSourceRoot af.file_id root_id },
          ⟨mapInsert sr.files af.path af.file_id⟩) rest

/-- Removal phase of `RootDatabase::apply_root_change`: clear the file text to
the default (empty) string and drop the path from the cloned root's file
set; no other per-file data is touched. -/
def applyRemoves : RootDatabaseState × SourceRoot → List RemoveFile → RootDatabaseState × SourceRoot
  | acc, [] => acc
  | (s, sr), rf :: rest =>
      applyRemoves
        ({ s with fileText := upd s.fileText rf.file_id "" },
          ⟨mapRemove sr.files rf.path⟩) rest

/-- Mirror of `RootDatabase::apply_root_change`: clone the root, run the adds
then the removals, and write the updated root back. -/
def apply_root_change (st : RootDatabaseState) (root_id : Nat) (rc : RootChange) : RootDatabaseState :=
  let acc1 := applyAdds root_id (st, st.sourceRoots root_id) rc.added
  let acc2 := applyRemoves acc1 rc.removed
  { acc2.1 with sourceRoots := upd acc2.1.sourceRoots root_id acc2.2 }

/-- New-roots phase of `RootDatabase::apply_change`: initialise every newly
declared root to an empty `SourceRoot` and collect the local ones. -/
def applyNewRoots : RootDatabaseState × List Nat → List (Nat × Bool) → RootDatabaseState × List Nat
  | acc, [] => acc
  | (s, lr), (root_id, isLocal) :: rest =>
      applyNewRoots
        ({ s with sourceRoots := upd s.sourceRoots root_id ⟨[]⟩ },
          if isLocal then lr ++ [root_id] else lr) rest

/-- Per-root portion of `RootDatabase::apply_change`: apply each root's
`RootChange` in order. -/
def applyRootChanges : RootDatabaseState → List (Nat × RootChange) → RootDatabaseState
  | st, [] => st
  | st, (root_id, rc) :: rest => applyRootChanges (apply_root_change st root_id rc) rest

/-- Standalone file-text replacements of `RootDatabase::apply_change`. -/
def applyFilesChanged : RootDatabaseState → List (Nat × String) → RootDatabaseState
  | st, [] => st
  | st, (fid, text) :: rest => applyFilesChanged { st with fileText := upd st.fileText fid text } rest

/-- Library phase of `RootDatabase::apply_change`: register the root, install
the prebuilt symbol index, and run the library's root change. -/
def applyLibraries : RootDatabaseState × List Nat → List LibraryData → RootDatabaseState × List Nat
  | acc, [] => acc
  | (s, libs), lib :: rest =>
      applyLibraries
        (apply_root_change
          { s with
              sourceRoots := upd s.sourceRoots lib.root_id ⟨[]⟩
              librarySymbols := upd s.librarySymbols lib.root_id lib.symbol_index }
          lib.root_id lib.root_change,
          libs ++ [lib.root_id]) rest

/-- New-roots step of `RootDatabase::apply_change`, guarded as in the source
by the batch's `new_roots` being non-empty. -/
def applyNewRootsPhase (st : RootDatabaseState) (l : List (Nat × Bool)) : RootDatabaseState :=
  if l.isEmpty then st
  else
    let acc := applyNewRoots (st, st.localRoots) l
    { acc.1 with localRoots := acc.2 }

/-- Libraries step of `RootDatabase::apply_change`, guarded as in the source
by the batch's `libraries_added` being non-empty. -/
def applyLibrariesPhase (st : RootDatabaseState) (l : List LibraryData) : RootDatabaseState :=
  if l.isEmpty then st
  else
    let acc := applyLibraries (st, st.libraryRoots) l
    { acc.1 with libraryRoots := acc.2 }

/-- Optional crate-graph replacement at the end of
`RootDatabase::apply_change`. -/
def applyCrateGraphPhase (st : RootDatabaseState) (g : Option CrateGraph) : RootDatabaseState :=
  match g with
  | some graph => { st with crateGraph := graph }
  | none => st

/-- Mirror of `RootDatabase::apply_change`: new roots, per-root changes,
standalone text edits, libraries, then the optional crate-graph replacement.
The salsa revision counter is modelled separately on the host, see
`hostApplyChange`. -/
def apply_change (st : RootDatabaseState) (change : AnalysisChange) : RootDatabaseState :=
  applyCrateGraphPhase
    (applyLibrariesPhase
      (applyFilesChanged
        (applyRootChanges (applyNewRootsPhase st change.new_roots) change.roots_changed)
        change.files_changed)
      change.libraries_added)
    change.crate_graph

/-- The `AnalysisHost`: the mutable input store plus the process-wide
revision counter. -/
structure AnalysisHostState where
  db : RootDatabaseState
  revision : Nat

/-- Modelled from the spec: the revision counter lives in the salsa runtime,
which is not among the reviewed sources; per the spec it advances exactly
once per applied `AnalysisChange` batch, after all of the batch's mutations
have been applied. -/
def hostApplyChange (h : AnalysisHostState) (change : AnalysisChange) : AnalysisHostState :=
  { db := apply_change h.db change, revision := h.revision + 1 }

/-- Mirror of `LocalSyntaxPtr`: a syntax kind plus a range identifying a node. -/
structure LocalSyntaxPtr where
  kind : SyntaxKind
  range : TextRange
deriving DecidableEq, Repr

/-- Mirror of `NavigationTarget` from `ra_analysis/src/lib.rs`. -/
structure NavigationTarget where
  file_id : Nat
  name : String
  kind : SyntaxKind
  range : TextRange
  ptr : Option LocalSyntaxPtr
deriving DecidableEq, Repr

/-- Mirror of `NavigationTarget::from_symbol`. -/
def NavigationTarget.from_symbol (s : FileSymbol) : NavigationTarget :=
  { file_id := s.file_id, name := s.name, kind := s.ptrKind, range := s.ptrRange,
    ptr := some ⟨s.ptrKind, s.ptrRange⟩ }

/-- Mirror of `ReferenceResolution` from `ra_analysis/src/lib.rs`. -/
structure ReferenceResolution where
  reference_range : TextRange
  resolves_to : List NavigationTarget
deriving DecidableEq, Repr

/-- Mirror of `Query` from `ra_analysis/src/lib.rs`. -/
structure Query where
  query : String
  lowercased : String
  only_types : Bool
  libs : Bool
  exact : Bool
  limit : Nat
deriving DecidableEq, Repr

/-- Mirror of `Query::new`: `limit` defaults to `usize::max_value()`. -/
def Query.new (q : String) : Query :=
  { query := q, lowercased := q.toLower, only_types := false, libs := false,
    exact := false, limit := 18446744073709551615 }

/-- Modelled from the spec: `symbol_index::world_symbols` (the `symbol_index`
module is not among the reviewed sources).  Per the spec the lookup with
`exact` set is an exact, case-sensitive match of the query text against the
index, returning at most `limit` symbols. -/
def world_symbols (index : List FileSymbol) (q : Query) : List FileSymbol :=
  (if q.exact then index.filter (fun s => s.name = q.query) else index).take q.limit

/-- Mirror of `RootDatabase::index_resolve`: build a `Query` from the
reference's text, set `exact` and a limit of 4, and run the symbol lookup. -/
def index_resolve (index : List FileSymbol) (nameRefText : String) : List FileSymbol :=
  let q0 := Query.new nameRefText
  let q1 := { q0 with exact := true }
  let q2 := { q1 with limit := 4 }
  world_symbols index q2

/-- A `NameRef` token: its text and its range. -/
structure NameRefNode where
  text : String
  range : TextRange
deriving DecidableEq, Repr

/-- A `Name` (declared-name) token. -/
structure NameNode where
  range : TextRange
deriving DecidableEq, Repr

/-- A binding pattern (`ast::BindPat`); `nameRange` is the range of its
`name()` node when present. -/
structure BindPatNode where
  nameRange : Option TextRange
deriving DecidableEq, Repr

/-- A scope entry produced by `resolve_local_name`: the binding's name and
the range of its resolved syntax pointer. -/
structure ScopeEntry where
  name : String
  ptrRange : TextRange
deriving DecidableEq, Repr

/-- The lexical-scope collaborator of one function (`FnScopes` in hir):
local-name resolution and reference enumeration for a binding. -/
structure FnScopes where
  resolve_local_name : NameRefNode → Option ScopeEntry
  find_all_refs_of : BindPatNode → List TextRange

/-- A `mod` item as seen by the resolution engine. -/
structure ModuleNode where
  hasSemi : Bool
deriving DecidableEq, Repr

/-- The module file a `mod x;` declaration pulls in. -/
structure ChildModule where
  file_id : Nat
  name : Option String
deriving DecidableEq, Repr

/-- External collaborators of the resolution engine (parser node lookup,
`hir::source_binder`, scopes), supplied as pure functions; `index` is the
database's global symbol index, consumed through `index_resolve`. -/
structure ResolveCollab where
  findNameRefAt : Nat → Option NameRefNode
  findNameAt : Nat → Option NameNode
  findBindPatAt : Nat → Option BindPatNode
  fnFromNameRef : NameRefNode → Option FnScopes
  fnFromBindPat : BindPatNode → Option FnScopes
  parentModuleOf : NameNode → Option ModuleNode
  moduleFromDeclaration : ModuleNode → Option ChildModule
  index : List FileSymbol

/-- Mirror of `RootDatabase::approximately_resolve_symbol`: on a name
reference, try local scope resolution first and short-circuit on success,
falling back to the index lookup otherwise; on a declared name that is a
`mod x;` declaration, resolve to the child module file with an empty
synthetic range; otherwise no result. -/
def approximately_resolve_symbol (c : ResolveCollab) (position : FilePosition) : Option ReferenceResolution :=
  match c.findNameRefAt position.offset with
  | some name_ref =>
    let localResult : Option NavigationTarget :=
      match c.fnFromNameRef name_ref with
      | some fn_descr =>
        match fn_descr.resolve_local_name name_ref with
        | some entry =>
            some { file_id := position.file_id, name := entry.name,
                   kind := SyntaxKind.NAME, range := entry.ptrRange, ptr := none }
        | none => none
      | none => none
    match localResult with
    | some nav => some { reference_range := name_ref.range, resolves_to := [nav] }
    | none =>
        some { reference_range := name_ref.range,
               resolves_to := (index_resolve c.index name_ref.text).map NavigationTarget.from_symbol }
  | none =>
    match c.findNameAt position.offset with
    | some name =>
      match c.parentModuleOf name with
      | some module =>
        if module.hasSemi then
          match c.moduleFromDeclaration module with
          | some child_module =>
              some { reference_range := name.range,
                     resolves_to := [{ file_id := child_module.file_id,
                                       name := child_module.name.getD "",
                                       kind := SyntaxKind.MODULE,
                                       range := ⟨0, 0⟩, ptr := none }] }
          | none => none
        else none
      | none => none
    | none => none

/-- Mirror of the nested `find_binding` helper of
`RootDatabase::find_all_refs`: a binding pattern under the cursor, or else a
name reference that locally resolves, followed by the binding pattern found
at the end offset of the resolved pointer. -/
def find_binding (c : ResolveCollab) (position : FilePosition) : Option (BindPatNode × FnScopes) :=
  match c.findBindPatAt position.offset with
  | some binding =>
    match c.fnFromBindPat binding with
    | some descr => some (binding, descr)
    | none => none
  | none =>
    match c.findNameRefAt position.offset with
    | none => none
    | some name_ref =>
      match c.fnFromNameRef name_ref with
      | none => none
      | some descr =>
        match descr.resolve_local_name name_ref with
        | none => none
        | some resolved =>
          match c.findBindPatAt resolved.ptrRange.stop with
          | none => none
          | some binding => some (binding, descr)

/-- Mirror of `RootDatabase::find_all_refs`: the binding's own name range (if
any) followed by every reference range the scopes report, all paired with
the query's file id. -/
def find_all_refs (c : ResolveCollab) (position : FilePosition) : List (Nat × TextRange) :=
  match find_binding c position with
  | none => []
  | some (binding, descr) =>
      (binding.nameRange.toList.map (fun r => (position.file_id, r)))
        ++ (descr.find_all_refs_of binding).map (fun rd => (position.file_id, rd))

/-- Mirror of `SourceFileEdit`; a `TextEdit` is its list of atomic
(range, replacement) pairs. -/
structure SourceFileEdit where
  file_id : Nat
  edit : List (TextRange × String)
deriving DecidableEq, Repr

/-- Mirror of `RootDatabase::rename`: one `SourceFileEdit` per range returned
by `find_all_refs`, each carrying the single replacement of that range with
the new name. -/
def rename (c : ResolveCollab) (position : FilePosition) (new_name : String) : List SourceFileEdit :=
  (find_all_refs c position).map
    (fun p => { file_id := p.1, edit := [(p.2, new_name)] })

/-- Count of comma characters in the raw text in the half-open interval
from `start` to `offset`; mirrors the slice-and-count in
`RootDatabase::resolve_callable`. -/
def commasBetween (text : String) (start offset : Nat) : Nat :=
  (((text.toList.drop start).take (offset - start)).filter (fun ch => ch = ',')).length

/-- Mirror of the current-parameter computation inside
`RootDatabase::resolve_callable`: `numParams` is `descriptor.params.len()`,
`hasSelf` is whether the resolved `fn` declares a `self` parameter, and the
comma count is taken over the raw text between the start of the argument
list and the cursor offset, incremented by one when the function has a
`self` parameter. -/
def currentParameter (numParams : Nat) (hasSelf : Bool) (argListStart : Option Nat)
    (text : String) (offset : Nat) : Option Nat :=
  if numParams = 1 then
    if hasSelf then none else some 0
  else if 1 < numParams then
    match argListStart with
    | some start =>
        let commas := commasBetween text start offset
        some (if hasSelf then commas + 1 else commas)
    | none => none
  else none

/-- Modelled from the spec: `hir::FnSignatureInfo` is not among the reviewed
sources; only its parameter list matters here, and per the spec the list
counts the implicit `self` receiver of a method (the spec discounts "an
implicit receiver" from it when deciding that no index is reported). -/
structure FnSignatureInfo where
  name : String
  params : List String
deriving DecidableEq, Repr

/-- The calling expression found at the cursor (`FnCallNode`): its callee
name reference and the start offset of its argument list, when present. -/
structure FnCallInfo where
  nameRef : Option NameRefNode
  argListStart : Option Nat
deriving DecidableEq, Repr

/-- Collaborators of `RootDatabase::resolve_callable`: the symbol index, the
call-node lookup, `source_binder::function_from_source` (returning an opaque
descriptor handle), `signature_info` on that handle, the `self`-parameter
test on the resolved `fn` node, and the raw file text. -/
structure CallCollab where
  index : List FileSymbol
  findCall : Nat → Option FnCallInfo
  functionFromSource : FileSymbol → Option Nat
  signature_info : Nat → Option FnSignatureInfo
  hasSelfOf : FileSymbol → Bool
  fileText : String

/-- The candidate loop of `RootDatabase::resolve_callable`: take the first
`FN_DEF` symbol; a failing `function_from_source` aborts the whole query
(the source's `ctry!`), a missing signature skips to the next candidate. -/
def resolveCallableLoop (c : CallCollab) (call : FnCallInfo) (offset : Nat) :
    List FileSymbol → Option (FnSignatureInfo × Option Nat)
  | [] => none
  | symbol :: rest =>
    if symbol.ptrKind = SyntaxKind.FN_DEF then
      match c.functionFromSource symbol with
      | none => none
      | some descr =>
        match c.signature_info descr with
        | some descriptor =>
            some (descriptor,
              currentParameter descriptor.params.length (c.hasSelfOf symbol)
                call.argListStart c.fileText offset)
        | none => resolveCallableLoop c call offset rest
    else resolveCallableLoop c call offset rest

/-- Mirror of `RootDatabase::resolve_callable`. -/
def resolve_callable (c : CallCollab) (position : FilePosition) : Option (FnSignatureInfo × Option Nat) :=
  match c.findCall position.offset with
  | none => none
  | some calling_node =>
    match calling_node.nameRef with
    | none => none
    | some name_ref =>
        resolveCallableLoop c calling_node position.offset (index_resolve c.index name_ref.text)

/-- Mirror of `ra_editor::Severity`. -/
inductive Severity where
  | Error
  | WeakWarning
deriving DecidableEq, Repr

/-- Mirror of `hir::Problem`. -/
inductive Problem where
  | UnresolvedModule (candidate : String)
  | NotDirOwner (moveTo : String) (candidate : String)
deriving DecidableEq, Repr

/-- Mirror of `FileSystemEdit` from `ra_analysis/src/lib.rs`. -/
inductive FileSystemEdit where
  | CreateFile (source_root : Nat) (path : String)
  | MoveFile (src : Nat) (dst_source_root : Nat) (dst_path : String)
deriving DecidableEq, Repr

/-- Mirror of `SourceChange` from `ra_analysis/src/lib.rs`. -/
structure SourceChange where
  label : String
  source_file_edits : List SourceFileEdit
  file_system_edits : List FileSystemEdit
  cursor_position : Option FilePosition
deriving DecidableEq, Repr

/-- Mirror of `Diagnostic` from `ra_analysis/src/lib.rs`. -/
structure Diagnostic where
  message : String
  range : TextRange
  fix : Option SourceChange
  severity : Severity
deriving DecidableEq, Repr

/-- Mirror of `ra_editor::LocalEdit`. -/
structure LocalEdit where
  label : String
  edit : List (TextRange × String)
  cursor_position : Option Nat
deriving DecidableEq, Repr

/-- A diagnostic as reported by the `ra_editor` collaborator. -/
structure EditorDiagnostic where
  range : TextRange
  msg : String
  severity : Severity
  fix : Option LocalEdit
deriving DecidableEq, Repr

/-- Mirror of `SourceChange::from_local_edit`. -/
def SourceChange.from_local_edit (file_id : Nat) (edit : LocalEdit) : SourceChange :=
  { label := edit.label,
    source_file_edits := [{ file_id := file_id, edit := edit.edit }],
    file_system_edits := [],
    cursor_position := edit.cursor_position.map (fun offset => { file_id := file_id, offset := offset }) }

/-- Path join of `RelativePathBuf::join`. -/
def pathJoin (a b : String) : String := a ++ "/" ++ b

/-- The per-problem translation inside `RootDatabase::diagnostics`. -/
def problemDiagnostic (source_root file_id : Nat) (nameRange : TextRange) : Problem → Diagnostic
  | Problem.UnresolvedModule candidate =>
      { message := "unresolved module", range := nameRange, severity := Severity.Error,
        fix := some { label := "create module", source_file_edits := [],
                      file_system_edits := [FileSystemEdit.CreateFile source_root candidate],
                      cursor_position := none } }
  | Problem.NotDirOwner moveTo candidate =>
      { message := "can\x27t declare module at this location", range := nameRange,
        severity := Severity.Error,
        fix := some { label := "move file and create module", source_file_edits := [],
                      file_system_edits := [FileSystemEdit.MoveFile file_id source_root moveTo,
                                            FileSystemEdit.CreateFile source_root (pathJoin moveTo candidate)],
                      cursor_position := none } }

/-- Mirror of `RootDatabase::diagnostics`: the editor collaborator's
diagnostics (fixes wrapped through `SourceChange::from_local_edit`), followed
by one diagnostic per module problem when the file has a module. -/
def diagnostics (editorDiags : List EditorDiagnostic)
    (moduleProblems : Option (List (NameNode × Problem)))
    (file_id source_root : Nat) : List Diagnostic :=
  editorDiags.map (fun d => { message := d.msg, range := d.range, severity := d.severity,
                              fix := d.fix.map (SourceChange.from_local_edit file_id) })
    ++ (match moduleProblems with
        | none => []
        | some problems =>
            problems.map (fun np => problemDiagnostic source_root file_id np.1.range np.2))

/-- Mirror of `RangeInfo<String>` from `ra_analysis/src/lib.rs`. -/
structure RangeInfo where
  range : TextRange
  info : String
deriving DecidableEq, Repr

/-- Collaborators of `hover`: the resolution collaborators plus the
description/doc-comment extractors on navigation targets, the covering
expression lookup, and type inference at a range. -/
structure HoverCollab where
  rc : ResolveCollab
  descriptionOf : NavigationTarget → Option String
  docsOf : NavigationTarget → Option String
  findExprAt : Nat → Option TextRange
  type_of : TextRange → Option String

/-- Mirror of `doc_text_for` from `ra_analysis/src/hover.rs`: signature and
docs joined, signature alone, docs alone, or nothing. -/
def doc_text_for (c : HoverCollab) (nav : NavigationTarget) : Option String :=
  match c.descriptionOf nav, c.docsOf nav with
  | some desc, some docs => some ("```rust\n" ++ desc ++ "\n```\n\n" ++ docs)
  | some desc, none => some ("```rust\n" ++ desc ++ "\n```")
  | none, some docs => some docs
  | none, none => none

/-- Mirror of `hover` from `ra_analysis/src/hover.rs`: try approximate
symbol resolution first and join the per-definition texts; only when
resolution yields nothing, fall back to the inferred type of the covering
expression. -/
def hover (c : HoverCollab) (position : FilePosition) : Option RangeInfo :=
  match approximately_resolve_symbol c.rc position with
  | some rr =>
    let res := rr.resolves_to.filterMap (doc_text_for c)
    if res.isEmpty then none
    else some { range := rr.reference_range, info := String.intercalate "\n\n---\n" res }
  | none =>
    match c.findExprAt position.offset with
    | none => none
    | some exprRange =>
      let res := (c.type_of exprRange).toList
      if res.isEmpty then none
      else some { range := exprRange, info := String.intercalate "\n\n---\n" res }

/-! Concrete instances used by witnesses and counterexamples. -/

/-- An empty input store. -/
def db0 : RootDatabaseState :=
  { fileText := fun _ => "", fileRelativePath := fun _ => "", fileSourceRoot := fun _ => 0,
    sourceRoots := fun _ => ⟨[]⟩, localRoots := [], libraryRoots := [],
    librarySymbols := fun _ => [], crateGraph := [] }

/-- A fresh host at revision zero. -/
def host0 : AnalysisHostState := { db := db0, revision := 0 }

/-- The empty change batch. -/
def emptyChange : AnalysisChange :=
  { new_roots := [], roots_changed := [], files_changed := [], libraries_added := [],
    crate_graph := none }

/-- A store holding one file `lib.rs` with id 1 in root 0. -/
def dbWithFile : RootDatabaseState :=
  { db0 with
      fileText := upd db0.fileText 1 "mod a;",
      fileRelativePath := upd db0.fileRelativePath 1 "lib.rs",
      sourceRoots := upd db0.sourceRoots 0 ⟨[("lib.rs", 1)]⟩ }

/-- A root change removing file 1 at `lib.rs`. -/
def removeRC : RootChange := { added := [], removed := [{ file_id := 1, path := "lib.rs" }] }

/-- A batch whose only effect is removing file 1 from root 0. -/
def removeChange : AnalysisChange := { emptyChange with roots_changed := [(0, removeRC)] }

/-- A name-reference token `x` at offset 10. -/
def exNameRef : NameRefNode := { text := "x", range := ⟨10, 11⟩ }

/-- The scope entry the example scope resolves `x` to. -/
def exEntry : ScopeEntry := { name := "x", ptrRange := ⟨5, 6⟩ }

/-- The binding pattern declaring the example `x`. -/
def exBindPat : BindPatNode := { nameRange := some ⟨5, 6⟩ }

/-- A scope resolving `x` locally and reporting two reference ranges. -/
def exScopes : FnScopes :=
  { resolve_local_name := fun nr => if nr.text = "x" then some exEntry else none,
    find_all_refs_of := fun _ => [⟨10, 11⟩, ⟨20, 21⟩] }

/-- Collaborators for a file where `x` resolves locally. -/
def collabLocal : ResolveCollab :=
  { findNameRefAt := fun o => if o = 10 then some exNameRef else none,
    findNameAt := fun _ => none,
    findBindPatAt := fun o => if o = 6 then some exBindPat else none,
    fnFromNameRef := fun _ => some exScopes,
    fnFromBindPat := fun _ => some exScopes,
    parentModuleOf := fun _ => none,
    moduleFromDeclaration := fun _ => none,
    index := [] }

/-- Collaborators where the name reference has no enclosing function and the
index is empty: both resolution paths fail. -/
def collabUnresolved : ResolveCollab :=
  { collabLocal with fnFromNameRef := fun _ => none, findBindPatAt := fun _ => none }

/-- Collaborators where no token at all covers the cursor. -/
def collabNothing : ResolveCollab :=
  { collabUnresolved with findNameRefAt := fun _ => none }

/-- A function symbol `f` in the index. -/
def exFnSymbol : FileSymbol :=
  { file_id := 2, name := "f", ptrKind := SyntaxKind.FN_DEF, ptrRange := ⟨0, 10⟩ }

/-- The signature of a three-parameter free function `f`. -/
def exSig3 : FnSignatureInfo := { name := "f", params := ["a", "b", "c"] }

/-- Call collaborators for `f(a, b, c<|>)` with the cursor at offset 9. -/
def callCollabPlain : CallCollab :=
  { index := [exFnSymbol],
    findCall := fun o =>
      if o = 9 then some { nameRef := some { text := "f", range := ⟨0, 1⟩ }, argListStart := some 1 }
      else none,
    functionFromSource := fun _ => some 0,
    signature_info := fun _ => some exSig3,
    hasSelfOf := fun _ => false,
    fileText := "f(a, b, c)" }

/-- The signature of a method `f` with one declared parameter besides the
receiver (the parameter list counts the receiver). -/
def exSigMethod : FnSignatureInfo := { name := "f", params := ["self", "x"] }

/-- Call collaborators for `obj.f(<|>)` with the cursor at offset 6. -/
def callCollabMethod : CallCollab :=
  { index := [exFnSymbol],
    findCall := fun o =>
      if o = 6 then some { nameRef := some { text := "f", range := ⟨4, 5⟩ }, argListStart := some 5 }
      else none,
    functionFromSource := fun _ => some 0,
    signature_info := fun _ => some exSigMethod,
    hasSelfOf := fun _ => true,
    fileText := "obj.f()" }

/-- The module-name token of the example `mod missing;` declaration. -/
def exModName : NameNode := { range := ⟨4, 11⟩ }

/-- Hover collaborators on top of `collabLocal`: the locally resolved binding
has a signature line and no doc comment. -/
def hoverCollabLocal : HoverCollab :=
  { rc := collabLocal,
    descriptionOf := fun nav => if nav.kind = SyntaxKind.NAME then some "fn x" else none,
    docsOf := fun _ => none,
    findExprAt := fun _ => none,
    type_of := fun _ => none }

/-- Hover collaborators where resolution finds nothing and the covering
expression has an inferred type. -/
def hoverCollabType : HoverCollab :=
  { rc := collabNothing,
    descriptionOf := fun _ => none,
    docsOf := fun _ => none,
    findExprAt := fun o => if o = 10 then some ⟨8, 12⟩ else none,
    type_of := fun r => if r = (⟨8, 12⟩ : TextRange) then some "u32" else none }

/-! Theorems. -/

theorem foldl_hostApplyChange_revision (bs : List AnalysisChange) (h : AnalysisHostState) :
    (bs.foldl hostApplyChange h).revision = h.revision + bs.length := by
  induction bs generalizing h with
  | nil => simp [List.foldl]
  | cons c cs ih =>
      simp only [List.foldl, ih, hostApplyChange, List.length_cons]
      omega

/-- C1: applying one `AnalysisChange` batch advances the revision by exactly
one, independently of the number of mutations inside the batch, and across
any sequence of applied batches the observed revision is strictly increasing
and never repeats (after `k` batches it equals the start revision plus `k`). -/
theorem revision_advances_once_per_batch (h : AnalysisHostState) (c : AnalysisChange)
    (bs : List AnalysisChange) (n m : Nat) (hnm : n < m) (hm : m ≤ bs.length) :
    (hostApplyChange h c).revision = h.revision + 1 ∧
    (bs.foldl hostApplyChange h).revision = h.revision + bs.length ∧
    ((bs.take n).foldl hostApplyChange h).revision <
      ((bs.take m).foldl hostApplyChange h).revision := by
  refine ⟨rfl, foldl_hostApplyChange_revision bs h, ?_⟩
  rw [foldl_hostApplyChange_revision, foldl_hostApplyChange_revision]
  simp only [List.length_take]
  omega

/-- Witness for C1 at a concrete host and a two-batch sequence. -/
theorem revision_advances_once_per_batch_w :
    (hostApplyChange host0 emptyChange).revision = host0.revision + 1 ∧
    ([emptyChange, emptyChange].foldl hostApplyChange host0).revision = host0.revision + 2 ∧
    (([emptyChange, emptyChange].take 0).foldl hostApplyChange host0).revision <
      (([emptyChange, emptyChange].take 2).foldl hostApplyChange host0).revision :=
  revision_advances_once_per_batch host0 emptyChange [emptyChange, emptyChange] 0 2
    (by decide) (by decide)

/-- C3: when the cursor covers a name-reference token that resolves within
the enclosing function's lexical scope, `approximately_resolve_symbol`
returns exactly that one local binding and its result does not depend on the
symbol index; the index results are returned exactly when local resolution
fails. -/
theorem local_resolution_short_circuits (c : ResolveCollab) (position : FilePosition)
    (name_ref : NameRefNode) (h1 : c.findNameRefAt position.offset = some name_ref) :
    (∀ descr entry, c.fnFromNameRef name_ref = some descr →
        descr.resolve_local_name name_ref = some entry →
        approximately_resolve_symbol c position =
          some { reference_range := name_ref.range,
                 resolves_to := [{ file_id := position.file_id, name := entry.name,
                                   kind := SyntaxKind.NAME, range := entry.ptrRange,
                                   ptr := none }] } ∧
        (∀ idx, approximately_resolve_symbol { c with index := idx } position =
            approximately_resolve_symbol c position)) ∧
    ((∀ descr, c.fnFromNameRef name_ref = some descr →
        descr.resolve_local_name name_ref = none) →
      approximately_resolve_symbol c position =
        some { reference_range := name_ref.range,
               resolves_to := (index_resolve c.index name_ref.text).map
                 NavigationTarget.from_symbol }) := by
  constructor
  · intro descr entry hd he
    constructor
    · simp [approximately_resolve_symbol, h1, hd, he]
    · intro idx
      simp [approximately_resolve_symbol, h1, hd, he]
  · intro hfail
    cases hcase : c.fnFromNameRef name_ref with
    | none => simp [approximately_resolve_symbol, h1, hcase]
    | some descr => simp [approximately_resolve_symbol, h1, hcase, hfail descr hcase]

/-- Witness for C3: concrete collaborators where `x` resolves locally. -/
theorem local_resolution_short_circuits_w :
    approximately_resolve_symbol collabLocal { file_id := 7, offset := 10 } =
      some { reference_range := ⟨10, 11⟩,
             resolves_to := [{ file_id := 7, name := "x", kind := SyntaxKind.NAME,
                               range := ⟨5, 6⟩, ptr := none }] } :=
  ((local_resolution_short_circuits collabLocal { file_id := 7, offset := 10 } exNameRef
      rfl).1 exScopes exEntry rfl (by decide)).1

/-- C10: when the cursor covers a name-reference token but both local
resolution and the index lookup produce no candidates,
`approximately_resolve_symbol` still returns a present `ReferenceResolution`
carrying the reference's range and an empty target list. -/
theorem resolution_present_with_empty_targets (c : ResolveCollab) (position : FilePosition)
    (name_ref : NameRefNode)
    (h1 : c.findNameRefAt position.offset = some name_ref)
    (h2 : ∀ descr, c.fnFromNameRef name_ref = some descr →
        descr.resolve_local_name name_ref = none)
    (h3 : index_resolve c.index name_ref.text = []) :
    approximately_resolve_symbol c position =
      some { reference_range := name_ref.range, resolves_to := [] } := by
  cases hcase : c.fnFromNameRef name_ref with
  | none => simp [approximately_resolve_symbol, h1, hcase, h3]
  | some descr => simp [approximately_resolve_symbol, h1, hcase, h2 descr hcase, h3]

/-- Witness for C10 at concrete collaborators with an empty index. -/
theorem resolution_present_with_empty_targets_w :
    approximately_resolve_symbol collabUnresolved { file_id := 7, offset := 10 } =
      some { reference_range := ⟨10, 11⟩, resolves_to := [] } :=
  resolution_present_with_empty_targets collabUnresolved { file_id := 7, offset := 10 }
    exNameRef rfl (by intro descr h; simp [collabUnresolved] at h) rfl

/-- C4: on a binding pattern, or on a name reference that locally resolves
to a binding pattern, `find_all_refs` returns the binding's declaration range
followed by every reference range the scopes report, all in the query's file
(`N + 1` ranges for `N` references); when no binding is found the result is
empty, with no index-based fallback. -/
theorem find_all_refs_decl_plus_refs (c : ResolveCollab) (position : FilePosition) :
    (∀ binding descr declRange,
        find_binding c position = some (binding, descr) →
        binding.nameRange = some declRange →
        find_all_refs c position =
            (position.file_id, declRange) ::
              (descr.find_all_refs_of binding).map (fun r => (position.file_id, r)) ∧
        (find_all_refs c position).length = (descr.find_all_refs_of binding).length + 1 ∧
        (∀ q ∈ find_all_refs c position, q.1 = position.file_id)) ∧
    (find_binding c position = none → find_all_refs c position = []) := by
  constructor
  · intro binding descr declRange hb hn
    have he : find_all_refs c position =
        (position.file_id, declRange) ::
          (descr.find_all_refs_of binding).map (fun r => (position.file_id, r)) := by
      simp [find_all_refs, hb, hn]
    refine ⟨he, ?_, ?_⟩
    · rw [he]; simp
    · rw [he]
      intro q hq
      rcases List.mem_cons.mp hq with h | h
      · rw [h]
      · obtain ⟨r, _, hr⟩ := List.mem_map.mp h
        rw [← hr]
  · intro hb
    simp [find_all_refs, hb]

/-- Witness for C4: a binding declared once and referenced twice yields three
ranges in the query's file. -/
theorem find_all_refs_decl_plus_refs_w :
    find_all_refs collabLocal { file_id := 7, offset := 10 } =
      (7, (⟨5, 6⟩ : TextRange)) ::
        (exScopes.find_all_refs_of exBindPat).map (fun r => (7, r)) :=
  (((find_all_refs_decl_plus_refs collabLocal { file_id := 7, offset := 10 }).1
      exBindPat exScopes ⟨5, 6⟩ rfl rfl)).1

/-- C5 counterexample: with three ranges found, all in one file, `rename`
produces three edit groups while only one distinct file is touched, so the
result is not grouped as one edit group per distinct file. -/
theorem rename_not_grouped_per_file_cex :
    (rename collabLocal { file_id := 7, offset := 10 } "y").length = 3 ∧
    ((find_all_refs collabLocal { file_id := 7, offset := 10 }).map Prod.fst).dedup = [7] ∧
    ¬ ((rename collabLocal { file_id := 7, offset := 10 } "y").length =
        (((find_all_refs collabLocal { file_id := 7, offset := 10 }).map Prod.fst).dedup).length) := by
  refine ⟨by decide, by decide, by decide⟩

/-- C5 amended: `rename` produces one single-range edit group per range
returned by `find_all_refs` (several groups may share a file), each replacing
that range with the new name; when `find_all_refs` finds nothing, `rename`
returns zero edits. -/
theorem rename_one_edit_group_per_range (c : ResolveCollab) (position : FilePosition)
    (new_name : String) :
    (rename c position new_name).length = (find_all_refs c position).length ∧
    (∀ e ∈ rename c position new_name, ∃ p ∈ find_all_refs c position,
        e.file_id = p.1 ∧ e.edit = [(p.2, new_name)]) ∧
    (find_all_refs c position = [] → rename c position new_name = []) := by
  refine ⟨by simp [rename], ?_, ?_⟩
  · intro e he
    obtain ⟨p, hp, he2⟩ := List.mem_map.mp he
    exact ⟨p, hp, by rw [← he2], by rw [← he2]⟩
  · intro h
    simp [rename, h]

/-- Witness for C5 at collaborators where nothing is found: zero edits. -/
theorem rename_one_edit_group_per_range_w :
    rename collabNothing { file_id := 7, offset := 10 } "y" = [] :=
  (rename_one_edit_group_per_range collabNothing { file_id := 7, offset := 10 } "y").2.2
    (by decide)

theorem take_of_length_le {α : Type} : ∀ (l : List α) (n : Nat), l.length ≤ n → l.take n = l
  | [], _, _ => by simp
  | _ :: _, 0, h => by simp at h
  | a :: l, n + 1, h => by
      simp only [List.take]
      rw [take_of_length_le l n (by simpa using h)]

/-- C7: `index_resolve` performs an exact, case-sensitive lookup of the
reference's text and returns at most 4 matches; when at most 4 exact matches
exist, it returns exactly the exact matches. -/
theorem index_resolve_exact_limited (index : List FileSymbol) (text : String) :
    (index_resolve index text).length ≤ 4 ∧
    (∀ s ∈ index_resolve index text, s.name = text) ∧
    ((index.filter (fun s => s.name = text)).length ≤ 4 →
        index_resolve index text = index.filter (fun s => s.name = text)) := by
  refine ⟨?_, ?_, ?_⟩
  · simp only [index_resolve, world_symbols, Query.new, List.length_take]
    omega
  · intro s hs
    simp only [index_resolve, world_symbols, Query.new] at hs
    have hmem := List.mem_of_mem_take hs
    have := List.mem_filter.mp hmem
    simpa using this.2
  · intro hle
    simp only [index_resolve, world_symbols, Query.new]
    exact take_of_length_le _ 4 hle

/-- Witness for C7 at a concrete index with a single exact match. -/
theorem index_resolve_exact_limited_w :
    index_resolve [exFnSymbol] "f" = [exFnSymbol].filter (fun s => s.name = "f") :=
  (index_resolve_exact_limited [exFnSymbol] "f").2.2 (by decide)

/-- C6 counterexample: for the method call `obj.f(<|>)` where `f` has one
declared parameter besides the receiver, `resolve_callable` reports current
parameter index 1 (zero commas before the cursor, plus one for the implicit
receiver), not index 0 as the claim's example states. -/
theorem method_call_param_index_cex :
    resolve_callable callCollabMethod { file_id := 1, offset := 6 } =
      some (exSigMethod, some 1) ∧
    ¬ (resolve_callable callCollabMethod { file_id := 1, offset := 6 } =
        some (exSigMethod, some 0)) := by
  refine ⟨by decide, by decide⟩

/-- C6 amended: with the callee resolved through the index to a function
definition, the reported index is `currentParameter` of the signature's
parameter count and the function's `self` flag: a single-parameter function
without `self` reports index 0; with more than one parameter the index is
the comma count in the raw text strictly between the argument-list start and
the cursor, incremented by one when the function declares `self` — so
`f(a, b, c<|>)` with three parameters reports index 2, and `obj.f(<|>)` with
one declared parameter besides the receiver reports index 1 (the receiver
occupies slot 0). -/
theorem resolve_callable_param_index (c : CallCollab) (position : FilePosition)
    (call : FnCallInfo) (name_ref : NameRefNode) (symbol : FileSymbol) (descr : Nat)
    (descriptor : FnSignatureInfo)
    (h1 : c.findCall position.offset = some call)
    (h2 : call.nameRef = some name_ref)
    (h3 : index_resolve c.index name_ref.text = [symbol])
    (h4 : symbol.ptrKind = SyntaxKind.FN_DEF)
    (h5 : c.functionFromSource symbol = some descr)
    (h6 : c.signature_info descr = some descriptor) :
    resolve_callable c position =
      some (descriptor,
        currentParameter descriptor.params.length (c.hasSelfOf symbol)
          call.argListStart c.fileText position.offset) ∧
    (descriptor.params.length = 1 → c.hasSelfOf symbol = false →
        resolve_callable c position = some (descriptor, some 0)) ∧
    (∀ start, 1 < descriptor.params.length → call.argListStart = some start →
        resolve_callable c position =
          some (descriptor,
            some (commasBetween c.fileText start position.offset +
              (if c.hasSelfOf symbol then 1 else 0)))) ∧
    resolve_callable callCollabPlain { file_id := 1, offset := 9 } = some (exSig3, some 2) ∧
    resolve_callable callCollabMethod { file_id := 1, offset := 6 } =
      some (exSigMethod, some 1) := by
  have hmain : resolve_callable c position =
      some (descriptor,
        currentParameter descriptor.params.length (c.hasSelfOf symbol)
          call.argListStart c.fileText position.offset) := by
    simp [resolve_callable, h1, h2, h3, resolveCallableLoop, h4, h5, h6]
  refine ⟨hmain, ?_, ?_, by decide, by decide⟩
  · intro hone hself
    rw [hmain]
    simp [currentParameter, hone, hself]
  · intro start hgt hstart
    rw [hmain]
    have hne : ¬ descriptor.params.length = 1 := by omega
    simp only [currentParameter, hne, if_false, hgt, if_true, hstart]
    cases c.hasSelfOf symbol <;> simp

/-- Witness for C6 at the concrete plain-call collaborators. -/
theorem resolve_callable_param_index_w :
    resolve_callable callCollabPlain { file_id := 1, offset := 9 } =
      some (exSig3,
        currentParameter exSig3.params.length (callCollabPlain.hasSelfOf exFnSymbol)
          (some 1) callCollabPlain.fileText 9) :=
  (resolve_callable_param_index callCollabPlain { file_id := 1, offset := 9 }
      { nameRef := some { text := "f", range := ⟨0, 1⟩ }, argListStart := some 1 }
      { text := "f", range := ⟨0, 1⟩ } exFnSymbol 0 exSig3
      rfl rfl (by decide) (by decide) rfl rfl).1

/-- C8: every unresolved-module problem with candidate path `P` yields
exactly one error diagnostic at the module-name range whose fix creates a
file at `P` in the file's source root; for both module-problem kinds the fix
carries only filesystem edits and no cursor-position hint. -/
theorem unresolved_module_diagnostic (editorDiags : List EditorDiagnostic)
    (nameRange : TextRange) (P : String) (file_id source_root : Nat)
    (hed : ∀ d ∈ editorDiags, d.msg ≠ "unresolved module") :
    ((diagnostics editorDiags (some [(⟨nameRange⟩, Problem.UnresolvedModule P)])
        file_id source_root).filter (fun d => d.message = "unresolved module")) =
      [{ message := "unresolved module", range := nameRange, severity := Severity.Error,
         fix := some { label := "create module", source_file_edits := [],
                       file_system_edits := [FileSystemEdit.CreateFile source_root P],
                       cursor_position := none } }] ∧
    (diagnostics editorDiags (some [(⟨nameRange⟩, Problem.UnresolvedModule P)])
        file_id source_root).length = editorDiags.length + 1 ∧
    (∀ r p, (problemDiagnostic source_root file_id r p).severity = Severity.Error ∧
        (problemDiagnostic source_root file_id r p).fix.map SourceChange.source_file_edits
          = some [] ∧
        (problemDiagnostic source_root file_id r p).fix.map SourceChange.cursor_position
          = some none) := by
  refine ⟨?_, by simp [diagnostics], ?_⟩
  · simp only [diagnostics, List.filter_append]
    have hleft : (editorDiags.map (fun d =>
        ({ message := d.msg, range := d.range, severity := d.severity,
           fix := d.fix.map (SourceChange.from_local_edit file_id) } : Diagnostic))).filter
          (fun d => d.message = "unresolved module") = [] := by
      rw [List.filter_eq_nil_iff]
      intro a ha
      obtain ⟨d, hd, hda⟩ := List.mem_map.mp ha
      rw [← hda]
      simpa using hed d hd
    rw [hleft]
    simp [problemDiagnostic]
  · intro r p
    cases p <;> simp [problemDiagnostic]

/-- Witness for C8 at a file with no editor diagnostics and one
unresolved-module problem. -/
theorem unresolved_module_diagnostic_w :
    ((diagnostics [] (some [(exModName, Problem.UnresolvedModule "missing.rs")]) 1 0).filter
        (fun d => d.message = "unresolved module")) =
      [{ message := "unresolved module", range := ⟨4, 11⟩, severity := Severity.Error,
         fix := some { label := "create module", source_file_edits := [],
                       file_system_edits := [FileSystemEdit.CreateFile 0 "missing.rs"],
                       cursor_position := none } }] :=
  (unresolved_module_diagnostic [] ⟨4, 11⟩ "missing.rs" 1 0 (by intro d hd; simp at hd)).1

/-- C9: hover attempts approximate symbol resolution first; when resolution
yields a result the hover is independent of the type-inference collaborators
and (when at least one definition produces text) equals the join of the
per-definition texts, each formed from signature and doc comment per
`doc_text_for` (doc only when the signature is absent, signature only when
the doc is absent, skipped when both are absent); hover shows the inferred
type of the covering expression only when resolution yields nothing. -/
theorem hover_resolution_first (c : HoverCollab) (position : FilePosition) :
    (∀ nav desc docs, c.descriptionOf nav = some desc → c.docsOf nav = some docs →
        doc_text_for c nav = some ("```rust\n" ++ desc ++ "\n```\n\n" ++ docs)) ∧
    (∀ nav desc, c.descriptionOf nav = some desc → c.docsOf nav = none →
        doc_text_for c nav = some ("```rust\n" ++ desc ++ "\n```")) ∧
    (∀ nav docs, c.descriptionOf nav = none → c.docsOf nav = some docs →
        doc_text_for c nav = some docs) ∧
    (∀ nav, c.descriptionOf nav = none → c.docsOf nav = none →
        doc_text_for c nav = none) ∧
    (∀ rr, approximately_resolve_symbol c.rc position = some rr →
        (∀ f g, hover { c with type_of := f, findExprAt := g } position = hover c position) ∧
        (rr.resolves_to.filterMap (doc_text_for c) ≠ [] →
            hover c position =
              some { range := rr.reference_range,
                     info := String.intercalate "\n\n---\n"
                       (rr.resolves_to.filterMap (doc_text_for c)) })) ∧
    (∀ exprRange t, approximately_resolve_symbol c.rc position = none →
        c.findExprAt position.offset = some exprRange →
        c.type_of exprRange = some t →
        hover c position = some { range := exprRange, info := t }) := by
  refine ⟨?_, ?_, ?_, ?_, ?_, ?_⟩
  · intro nav desc docs h1 h2; simp [doc_text_for, h1, h2]
  · intro nav desc h1 h2; simp [doc_text_for, h1, h2]
  · intro nav docs h1 h2; simp [doc_text_for, h1, h2]
  · intro nav h1 h2; simp [doc_text_for, h1, h2]
  · intro rr hres
    constructor
    · intro f g
      simp only [hover, hres]
      rfl
    · intro hne
      have hfalse : (rr.resolves_to.filterMap (doc_text_for c)).isEmpty = false := by
        cases hcase : rr.resolves_to.filterMap (doc_text_for c) with
        | nil => exact absurd hcase hne
        | cons a l => rfl
      simp only [hover, hres, hfalse]
      rfl
  · intro exprRange t hres hexpr ht
    simp only [hover, hres, hexpr, ht]
    rfl

/-- Witness for C9 at concrete collaborators: resolution succeeds and the
single definition carries a signature line and no docs. -/
theorem hover_resolution_first_w :
    hover hoverCollabLocal { file_id := 7, offset := 10 } =
      some { range := ⟨10, 11⟩, info := "```rust\nfn x\n```" } := by
  have h := ((hover_resolution_first hoverCollabLocal { file_id := 7, offset := 10 }).2.2.2.2.1
      { reference_range := ⟨10, 11⟩,
        resolves_to := [{ file_id := 7, name := "x", kind := SyntaxKind.NAME,
                          range := ⟨5, 6⟩, ptr := none }] } rfl).2 (by decide)
  simpa using h

theorem applyAdds_sourceRoots (root_id : Nat) :
    ∀ (l : List AddFile) (acc : RootDatabaseState × SourceRoot),
      (applyAdds root_id acc l).1.sourceRoots = acc.1.sourceRoots := by
  intro l
  induction l with
  | nil => intro acc; rfl
  | cons af rest ih =>
      intro acc
      obtain ⟨s, sr⟩ := acc
      simp only [applyAdds]
      rw [ih]

theorem applyAdds_not_mem (root_id f : Nat) :
    ∀ (l : List AddFile) (acc : RootDatabaseState × SourceRoot),
      f ∉ l.map AddFile.file_id →
      (applyAdds root_id acc l).1.fileText f = acc.1.fileText f ∧
      (applyAdds root_id acc l).1.fileRelativePath f = acc.1.fileRelativePath f ∧
      (applyAdds root_id acc l).1.fileSourceRoot f = acc.1.fileSourceRoot f := by
  intro l
  induction l with
  | nil => intro acc _; exact ⟨rfl, rfl, rfl⟩
  | cons af rest ih =>
      intro acc hf
      obtain ⟨s, sr⟩ := acc
      simp only [List.map_cons, List.mem_cons, not_or] at hf
      simp only [applyAdds]
      have h := ih ({ s with
            fileText := upd s.fileText af.file_id af.text
            fileRelativePath := upd s.fileRelativePath af.file_id af.path
            fileSourceRoot := upd s.fileSourceRoot af.file_id root_id },
          ⟨mapInsert sr.files af.path af.file_id⟩) hf.2
      refine ⟨?_, ?_, ?_⟩
      · rw [h.1]; simp [upd, hf.1]
      · rw [h.2.1]; simp [upd, hf.1]
      · rw [h.2.2]; simp [upd, hf.1]

theorem applyRemoves_fields :
    ∀ (l : List RemoveFile) (acc : RootDatabaseState × SourceRoot),
      (applyRemoves acc l).1.fileRelativePath = acc.1.fileRelativePath ∧
      (applyRemoves acc l).1.fileSourceRoot = acc.1.fileSourceRoot ∧
      (applyRemoves acc l).1.sourceRoots = acc.1.sourceRoots := by
  intro l
  induction l with
  | nil => intro acc; exact ⟨rfl, rfl, rfl⟩
  | cons rf rest ih =>
      intro acc
      obtain ⟨s, sr⟩ := acc
      simp only [applyRemoves]
      exact ih _

theorem applyRemoves_fileText_empty :
    ∀ (l : List RemoveFile) (acc : RootDatabaseState × SourceRoot) (f : Nat),
      acc.1.fileText f = "" → (applyRemoves acc l).1.fileText f = "" := by
  intro l
  induction l with
  | nil => intro acc f h; exact h
  | cons rf rest ih =>
      intro acc f h
      obtain ⟨s, sr⟩ := acc
      simp only [applyRemoves]
      apply ih
      simp only [upd]
      split
      · rfl
      · exact h

theorem applyRemoves_fileText_of_mem :
    ∀ (l : List RemoveFile) (acc : RootDatabaseState × SourceRoot) (rf : RemoveFile),
      rf ∈ l → (applyRemoves acc l).1.fileText rf.file_id = "" := by
  intro l
  induction l with
  | nil => intro acc rf h; exact absurd h (List.not_mem_nil _)
  | cons rf0 rest ih =>
      intro acc rf h
      obtain ⟨s, sr⟩ := acc
      rcases List.mem_cons.mp h with heq | hmem
      · subst heq
        simp only [applyRemoves]
        apply applyRemoves_fileText_empty rest
        simp [upd]
      · simp only [applyRemoves]
        exact ih _ rf hmem

theorem containsPath_mapRemove_self (m : List (String × Nat)) (p : String) :
    (SourceRoot.mk (mapRemove m p)).containsPath p = false := by
  rw [SourceRoot.containsPath, List.any_eq_false]
  intro q hq
  have h := List.mem_filter.mp hq
  simp only [decide_eq_true_eq] at h ⊢
  exact h.2

theorem containsPath_mapRemove_pres (m : List (String × Nat)) (k p : String)
    (h : (SourceRoot.mk m).containsPath p = false) :
    (SourceRoot.mk (mapRemove m k)).containsPath p = false := by
  rw [SourceRoot.containsPath, List.any_eq_false] at h ⊢
  intro q hq
  exact h q (List.mem_filter.mp hq).1

theorem applyRemoves_contains_pres :
    ∀ (l : List RemoveFile) (acc : RootDatabaseState × SourceRoot) (p : String),
      acc.2.containsPath p = false → (applyRemoves acc l).2.containsPath p = false := by
  intro l
  induction l with
  | nil => intro acc p h; exact h
  | cons rf rest ih =>
      intro acc p h
      obtain ⟨s, sr⟩ := acc
      simp only [applyRemoves]
      exact ih _ p (containsPath_mapRemove_pres sr.files rf.path p h)

theorem applyRemoves_contains_of_mem :
    ∀ (l : List RemoveFile) (acc : RootDatabaseState × SourceRoot) (rf : RemoveFile),
      rf ∈ l → (applyRemoves acc l).2.containsPath rf.path = false := by
  intro l
  induction l with
  | nil => intro acc rf h; exact absurd h (List.not_mem_nil _)
  | cons rf0 rest ih =>
      intro acc rf h
      obtain ⟨s, sr⟩ := acc
      rcases List.mem_cons.mp h with heq | hmem
      · subst heq
        simp only [applyRemoves]
        exact applyRemoves_contains_pres rest _ _ (containsPath_mapRemove_self sr.files rf.path)
      · simp only [applyRemoves]
        exact ih _ rf hmem

theorem arc_fileText_of_removed (st : RootDatabaseState) (root_id : Nat) (rc : RootChange)
    (rf : RemoveFile) (h : rf ∈ rc.removed) :
    (apply_root_change st root_id rc).fileText rf.file_id = "" := by
  simp only [apply_root_change]
  exact applyRemoves_fileText_of_mem rc.removed _ rf h

theorem arc_contains_of_removed (st : RootDatabaseState) (root_id : Nat) (rc : RootChange)
    (rf : RemoveFile) (h : rf ∈ rc.removed) :
    ((apply_root_change st root_id rc).sourceRoots root_id).containsPath rf.path = false := by
  simp only [apply_root_change, upd, if_pos]
  exact applyRemoves_contains_of_mem rc.removed _ rf h

theorem arc_sourceRoots_other (st : RootDatabaseState) (root_id : Nat) (rc : RootChange)
    (r2 : Nat) (h : r2 ≠ root_id) :
    (apply_root_change st root_id rc).sourceRoots r2 = st.sourceRoots r2 := by
  simp only [apply_root_change, upd, h, if_false]
  rw [(applyRemoves_fields rc.removed _).2.2]
  rw [applyAdds_sourceRoots]

theorem arc_fileText_empty_pres (st : RootDatabaseState) (root_id : Nat) (rc : RootChange)
    (f : Nat) (hf : f ∉ rc.added.map AddFile.file_id) (h : st.fileText f = "") :
    (apply_root_change st root_id rc).fileText f = "" := by
  simp only [apply_root_change]
  apply applyRemoves_fileText_empty
  rw [(applyAdds_not_mem root_id f rc.added _ hf).1]
  exact h

theorem arc_paths_pres (st : RootDatabaseState) (root_id : Nat) (rc : RootChange)
    (f : Nat) (hf : f ∉ rc.added.map AddFile.file_id) :
    (apply_root_change st root_id rc).fileRelativePath f = st.fileRelativePath f ∧
    (apply_root_change st root_id rc).fileSourceRoot f = st.fileSourceRoot f := by
  simp only [apply_root_change]
  constructor
  · rw [(applyRemoves_fields rc.removed _).1]
    exact (applyAdds_not_mem root_id f rc.added _ hf).2.1
  · rw [(applyRemoves_fields rc.removed _).2.1]
    exact (applyAdds_not_mem root_id f rc.added _ hf).2.2

theorem arcs_sourceRoots_pres (r : Nat) :
    ∀ (l : List (Nat × RootChange)) (st : RootDatabaseState),
      r ∉ l.map Prod.fst → (applyRootChanges st l).sourceRoots r = st.sourceRoots r := by
  intro l
  induction l with
  | nil => intro st _; rfl
  | cons e rest ih =>
      intro st h
      obtain ⟨r2, rc2⟩ := e
      simp only [List.map_cons, List.mem_cons, not_or] at h
      simp only [applyRootChanges]
      rw [ih _ h.2]
      exact arc_sourceRoots_other st r2 rc2 r h.1

theorem arcs_fileText_empty_pres (f : Nat) :
    ∀ (l : List (Nat × RootChange)) (st : RootDatabaseState),
      (∀ e ∈ l, f ∉ e.2.added.map AddFile.file_id) → st.fileText f = "" →
      (applyRootChanges st l).fileText f = "" := by
  intro l
  induction l with
  | nil => intro st _ h; exact h
  | cons e rest ih =>
      intro st hall h
      obtain ⟨r2, rc2⟩ := e
      simp only [applyRootChanges]
      apply ih _ (fun q hq => hall q (List.mem_cons_of_mem _ hq))
      exact arc_fileText_empty_pres st r2 rc2 f (hall (r2, rc2) (List.mem_cons_self _ _)) h

theorem arcs_paths_pres (f : Nat) :
    ∀ (l : List (Nat × RootChange)) (st : RootDatabaseState),
      (∀ e ∈ l, f ∉ e.2.added.map AddFile.file_id) →
      (applyRootChanges st l).fileRelativePath f = st.fileRelativePath f ∧
      (applyRootChanges st l).fileSourceRoot f = st.fileSourceRoot f := by
  intro l
  induction l with
  | nil => intro st _; exact ⟨rfl, rfl⟩
  | cons e rest ih =>
      intro st hall
      obtain ⟨r2, rc2⟩ := e
      simp only [applyRootChanges]
      have hh := arc_paths_pres st r2 rc2 f (hall (r2, rc2) (List.mem_cons_self _ _))
      have hi := ih (apply_root_change st r2 rc2)
        (fun q hq => hall q (List.mem_cons_of_mem _ hq))
      exact ⟨hi.1.trans hh.1, hi.2.trans hh.2⟩

theorem arcs_removed_main (root_id : Nat) (rc : RootChange) (rf : RemoveFile)
    (hrf : rf ∈ rc.removed) :
    ∀ (l : List (Nat × RootChange)) (st : RootDatabaseState),
      (root_id, rc) ∈ l → (l.map Prod.fst).Nodup →
      (∀ e ∈ l, e.1 ≠ root_id → rf.file_id ∉ e.2.added.map AddFile.file_id) →
      (applyRootChanges st l).fileText rf.file_id = "" ∧
      ((applyRootChanges st l).sourceRoots root_id).containsPath rf.path = false := by
  intro l
  induction l with
  | nil => intro st hmem _ _; exact absurd hmem (List.not_mem_nil _)
  | cons e rest ih =>
      intro st hmem hnodup hother
      simp only [List.map_cons] at hnodup
      have hkeys := List.nodup_cons.mp hnodup
      rcases List.mem_cons.mp hmem with heq | hmem2
      · subst heq
        simp only [applyRootChanges]
        have hrest_add : ∀ q ∈ rest, rf.file_id ∉ q.2.added.map AddFile.file_id := by
          intro q hq
          apply hother q (List.mem_cons_of_mem _ hq)
          intro hk
          have hin := List.mem_map_of_mem Prod.fst hq
          rw [hk] at hin
          exact hkeys.1 hin
        constructor
        · exact arcs_fileText_empty_pres rf.file_id rest _ hrest_add
            (arc_fileText_of_removed st root_id rc rf hrf)
        · rw [arcs_sourceRoots_pres root_id rest _ hkeys.1]
          exact arc_contains_of_removed st root_id rc rf hrf
      · obtain ⟨r2, rc2⟩ := e
        simp only [applyRootChanges]
        exact ih _ hmem2 hkeys.2 (fun q hq => hother q (List.mem_cons_of_mem _ hq))

theorem afc_fields :
    ∀ (l : List (Nat × String)) (st : RootDatabaseState),
      (applyFilesChanged st l).fileRelativePath = st.fileRelativePath ∧
      (applyFilesChanged st l).fileSourceRoot = st.fileSourceRoot ∧
      (applyFilesChanged st l).sourceRoots = st.sourceRoots := by
  intro l
  induction l with
  | nil => intro st; exact ⟨rfl, rfl, rfl⟩
  | cons e rest ih =>
      intro st
      obtain ⟨fid, text⟩ := e
      simp only [applyFilesChanged]
      exact ih _

theorem afc_fileText_pres (f : Nat) :
    ∀ (l : List (Nat × String)) (st : RootDatabaseState),
      f ∉ l.map Prod.fst → (applyFilesChanged st l).fileText f = st.fileText f := by
  intro l
  induction l with
  | nil => intro st _; rfl
  | cons e rest ih =>
      intro st h
      obtain ⟨fid, text⟩ := e
      simp only [List.map_cons, List.mem_cons, not_or] at h
      simp only [applyFilesChanged]
      rw [ih _ h.2]
      simp [upd, h.1]

theorem anr_fields :
    ∀ (l : List (Nat × Bool)) (acc : RootDatabaseState × List Nat),
      (applyNewRoots acc l).1.fileText = acc.1.fileText ∧
      (applyNewRoots acc l).1.fileRelativePath = acc.1.fileRelativePath ∧
      (applyNewRoots acc l).1.fileSourceRoot = acc.1.fileSourceRoot := by
  intro l
  induction l with
  | nil => intro acc; exact ⟨rfl, rfl, rfl⟩
  | cons e rest ih =>
      intro acc
      obtain ⟨s, lr⟩ := acc
      obtain ⟨rid, isl⟩ := e
      simp only [applyNewRoots]
      exact ih _

theorem newRootsPhase_fields (st : RootDatabaseState) (l : List (Nat × Bool)) :
    (applyNewRootsPhase st l).fileText = st.fileText ∧
    (applyNewRootsPhase st l).fileRelativePath = st.fileRelativePath ∧
    (applyNewRootsPhase st l).fileSourceRoot = st.fileSourceRoot := by
  unfold applyNewRootsPhase
  split
  · exact ⟨rfl, rfl, rfl⟩
  · exact ⟨(anr_fields l _).1, (anr_fields l _).2.1, (anr_fields l _).2.2⟩

theorem nodup_keys_unique {β : Type} :
    ∀ (l : List (Nat × β)) (k : Nat) (a b : β),
      (l.map Prod.fst).Nodup → (k, a) ∈ l → (k, b) ∈ l → a = b := by
  intro l
  induction l with
  | nil => intro k a b _ ha _; exact absurd ha (List.not_mem_nil _)
  | cons p rest ih =>
      intro k a b hnodup ha hb
      simp only [List.map_cons] at hnodup
      have hkeys := List.nodup_cons.mp hnodup
      rcases List.mem_cons.mp ha with h1 | h1
      · subst h1
        rcases List.mem_cons.mp hb with h2 | h2
        · injection h2 with _ hba
          exact hba.symm
        · exact absurd (List.mem_map_of_mem Prod.fst h2) hkeys.1
      · rcases List.mem_cons.mp hb with h2 | h2
        · subst h2
          exact absurd (List.mem_map_of_mem Prod.fst h1) hkeys.1
        · exact ih k a b hkeys.2 h1 h2

/-- C2: a file removed from root `R` by an applied `AnalysisChange` (and not
re-added or re-written elsewhere in the same batch) afterwards reads as the
empty string, its path is gone from `R`'s file set, and its id remains
allocated with its relative-path and owning-root entries untouched, so it
stays valid to query. -/
theorem removed_file_tombstone (st : RootDatabaseState) (change : AnalysisChange)
    (root_id : Nat) (rc : RootChange) (rf : RemoveFile)
    (hmem : (root_id, rc) ∈ change.roots_changed)
    (hnodup : (change.roots_changed.map Prod.fst).Nodup)
    (hrf : rf ∈ rc.removed)
    (hself : rf.file_id ∉ rc.added.map AddFile.file_id)
    (hother : ∀ e ∈ change.roots_changed, e.1 ≠ root_id →
        rf.file_id ∉ e.2.added.map AddFile.file_id)
    (hfc : rf.file_id ∉ change.files_changed.map Prod.fst)
    (hlib : change.libraries_added = []) :
    (apply_change st change).fileText rf.file_id = "" ∧
    ((apply_change st change).sourceRoots root_id).containsPath rf.path = false ∧
    (apply_change st change).fileRelativePath rf.file_id = st.fileRelativePath rf.file_id ∧
    (apply_change st change).fileSourceRoot rf.file_id = st.fileSourceRoot rf.file_id := by
  have hall : ∀ e ∈ change.roots_changed, rf.file_id ∉ e.2.added.map AddFile.file_id := by
    intro e he
    by_cases hk : e.1 = root_id
    · have hrc : e.2 = rc := by
        apply nodup_keys_unique change.roots_changed root_id e.2 rc hnodup _ hmem
        rw [← hk]
        exact he
      rw [hrc]
      exact hself
    · exact hother e he hk
  have hmain := arcs_removed_main root_id rc rf hrf change.roots_changed
      (applyNewRootsPhase st change.new_roots) hmem hnodup hother
  have hcg_fields : ∀ (s : RootDatabaseState) (g : Option CrateGraph),
      (applyCrateGraphPhase s g).fileText = s.fileText ∧
      (applyCrateGraphPhase s g).fileRelativePath = s.fileRelativePath ∧
      (applyCrateGraphPhase s g).fileSourceRoot = s.fileSourceRoot ∧
      (applyCrateGraphPhase s g).sourceRoots = s.sourceRoots := by
    intro s g
    cases g <;> exact ⟨rfl, rfl, rfl, rfl⟩
  unfold apply_change
  rw [hlib]
  have hlib_id : ∀ s : RootDatabaseState, applyLibrariesPhase s [] = s := fun s => rfl
  rw [hlib_id]
  obtain ⟨hft, hfr, hfs, hsr⟩ := hcg_fields
    (applyFilesChanged
      (applyRootChanges (applyNewRootsPhase st change.new_roots) change.roots_changed)
      change.files_changed)
    change.crate_graph
  rw [hft, hfr, hfs, hsr]
  refine ⟨?_, ?_, ?_, ?_⟩
  · rw [afc_fileText_pres rf.file_id change.files_changed _ hfc]
    exact hmain.1
  · rw [(afc_fields change.files_changed _).2.2]
    exact hmain.2
  · rw [(afc_fields change.files_changed _).1]
    rw [(arcs_paths_pres rf.file_id change.roots_changed _ hall).1]
    rw [(newRootsPhase_fields st change.new_roots).2.1]
  · rw [(afc_fields change.files_changed _).2.1]
    rw [(arcs_paths_pres rf.file_id change.roots_changed _ hall).2]
    rw [(newRootsPhase_fields st change.new_roots).2.2]

/-- Witness for C2: removing file 1 (`lib.rs`) from root 0 of a concrete
store leaves empty text, a file set without the path, and untouched path and
root entries for id 1. -/
theorem removed_file_tombstone_w :
    (apply_change dbWithFile removeChange).fileText 1 = "" ∧
    ((apply_change dbWithFile removeChange).sourceRoots 0).containsPath "lib.rs" = false ∧
    (apply_change dbWithFile removeChange).fileRelativePath 1 = dbWithFile.fileRelativePath 1 ∧
    (apply_change dbWithFile removeChange).fileSourceRoot 1 = dbWithFile.fileSourceRoot 1 :=
  removed_file_tombstone dbWithFile removeChange 0 removeRC { file_id := 1, path := "lib.rs" }
    (by decide) (by decide) (by decide) (by decide) (by decide) (by decide) rfl

end RaAnalysis
